import Mathlib

/-!
Verification of the PINT component-composition and masked-selection core:
the `JumpDelay` component (`pint/models/jump.py`) and the
`SolarWindDispersion` component (`pint/models/solar_wind_dispersion.py`).

Timestamps and parameter values of the jump component are embedded as
rationals; the solar-wind geometry, which goes through `arccos` and square
roots, is embedded over the reals.  Python exceptions are embedded as
`Except` values.
-/

namespace PintSpec

/-! Jump component (`pint/models/jump.py`). -/

/-- Modelled from the spec: a masked parameter is a value plus a selection
rule; the rule is an explicit list of closed time ranges over timestamps.
The class `maskParameter` lives in `parameter.py`, which is outside the
sources given. -/
structure maskParameter where
  value : ℚ
  ranges : List (ℚ × ℚ)

/-- Modelled from the spec: whether one timestamp satisfies the selection
rule (it lies in one of the rule's closed time ranges). -/
def matchesRule (ranges : List (ℚ × ℚ)) (t : ℚ) : Bool :=
  ranges.any (fun lh => decide (lh.1 ≤ t) && decide (t ≤ lh.2))

/-- Modelled from the spec: `select_toa_mask` resolves the selection rule of
a masked parameter to a boolean vector over the batch, one entry per
observation, a pure function of the rule and the batch. -/
def select_toa_mask (p : maskParameter) (toas : List ℚ) : List Bool :=
  toas.map (matchesRule p.ranges)

/-- State of the `JumpDelay` component: the catalog's register of mask
parameter names (`self.param_register` bucket for `maskParameter`), the
attribute lookup `getattr self` resolving a name to its parameter, and the
discovered list `self.jumps`. -/
structure JumpDelay where
  param_register_mask : List String
  params : String → maskParameter
  jumps : List String

/-- Embeds `JumpDelay.setup`: reassign `self.jumps` to a fresh empty list,
then append every registered mask-parameter name starting with "JUMP". -/
def JumpDelay.setup (c : JumpDelay) : JumpDelay :=
  ⟨c.param_register_mask, c.params,
    c.param_register_mask.foldl
      (fun js n => if n.startsWith "JUMP" then js ++ [n] else js) []⟩

/-- One iteration of the loop in `JumpDelay.jump_delay`:
`jdelay[mask] += -jump_par.value` for the jump parameter named `name`. -/
def jump_apply (c : JumpDelay) (toas : List ℚ) (jdelay : List ℚ)
    (name : String) : List ℚ :=
  List.zipWith (fun m d => if m then d + -(c.params name).value else d)
    (select_toa_mask (c.params name) toas) jdelay

/-- Embeds `JumpDelay.jump_delay`: start from `numpy.zeros(len(toas))` and
accumulate `-value` over the mask of every discovered jump parameter. -/
def jump_delay (c : JumpDelay) (toas : List ℚ) : List ℚ :=
  c.jumps.foldl (jump_apply c toas) (List.replicate toas.length 0)

theorem jump_apply_length (c : JumpDelay) (toas jdelay : List ℚ)
    (name : String) (h : jdelay.length = toas.length) :
    (jump_apply c toas jdelay name).length = toas.length := by
  simp [jump_apply, select_toa_mask, h]

theorem jump_foldl_length (c : JumpDelay) (toas : List ℚ)
    (names : List String) :
    ∀ init : List ℚ, init.length = toas.length →
      (names.foldl (jump_apply c toas) init).length = toas.length := by
  induction names with
  | nil => intro init h; simpa using h
  | cons n ns ih =>
      intro init h
      simpa using ih (jump_apply c toas init n) (jump_apply_length c toas init n h)

theorem jump_delay_length (c : JumpDelay) (toas : List ℚ) :
    (jump_delay c toas).length = toas.length :=
  jump_foldl_length c toas c.jumps (List.replicate toas.length 0) (by simp)

theorem jump_apply_getD (c : JumpDelay) (toas jdelay : List ℚ)
    (name : String) (h : jdelay.length = toas.length) (i : ℕ)
    (hi : i < toas.length) :
    (jump_apply c toas jdelay name).getD i 0 =
      if matchesRule (c.params name).ranges (toas.getD i 0) then
        jdelay.getD i 0 + -(c.params name).value
      else jdelay.getD i 0 := by
  have h1 : i < jdelay.length := by rw [h]; exact hi
  have h2 : i < (jump_apply c toas jdelay name).length := by
    rw [jump_apply_length c toas jdelay name h]; exact hi
  simp only [List.getD_eq_getElem?_getD, List.getElem?_eq_getElem h2,
    List.getElem?_eq_getElem h1, List.getElem?_eq_getElem hi, Option.getD_some]
  simp [jump_apply, select_toa_mask]

theorem jump_foldl_getD (c : JumpDelay) (toas : List ℚ) (i : ℕ)
    (hi : i < toas.length) (names : List String) :
    ∀ init : List ℚ, init.length = toas.length →
      (names.foldl (jump_apply c toas) init).getD i 0 =
        init.getD i 0 +
          ((names.filter
              (fun n => matchesRule (c.params n).ranges (toas.getD i 0))).map
            (fun n => -(c.params n).value)).sum := by
  induction names with
  | nil => intro init _; simp
  | cons n ns ih =>
      intro init h
      have hstep := jump_apply_getD c toas init n h i hi
      have hrec := ih (jump_apply c toas init n) (jump_apply_length c toas init n h)
      by_cases hm : matchesRule (c.params n).ranges (toas.getD i 0)
      · simp only [List.foldl_cons, hrec, hstep, hm, if_true,
          List.filter_cons_of_pos, List.map_cons, List.sum_cons]
        ring
      · simp only [List.foldl_cons, hrec, hstep, hm, if_false,
          List.filter_cons_of_neg, Bool.not_eq_true]
        simp [hm]

theorem jump_delay_getD (c : JumpDelay) (toas : List ℚ) (i : ℕ)
    (hi : i < toas.length) :
    (jump_delay c toas).getD i 0 =
      ((c.jumps.filter
          (fun n => matchesRule (c.params n).ranges (toas.getD i 0))).map
        (fun n => -(c.params n).value)).sum := by
  have := jump_foldl_getD c toas i hi c.jumps (List.replicate toas.length 0) (by simp)
  simpa [jump_delay] using this

theorem sum_map_neg (f : String → ℚ) (l : List String) :
    (l.map (fun n => -(f n))).sum = -((l.map f).sum) := by
  induction l with
  | nil => simp
  | cons n ns ih => simp [ih]; ring

theorem getD_zero_eq_getElem (l : List ℚ) (k : ℕ) (hk : k < l.length) :
    l.getD k 0 = l[k] := by
  simp [List.getD_eq_getElem?_getD, List.getElem?_eq_getElem hk]

theorem jump_foldl_nil (c : JumpDelay) (names : List String) :
    names.foldl (jump_apply c []) [] = [] := by
  induction names with
  | nil => rfl
  | cons n ns ih => simpa [jump_apply, select_toa_mask] using ih

/-- Example component for the spec's jump-delay invariant: one discovered
jump parameter with value 2 whose rule selects the observations at
timestamps 1 and 3. -/
def jumpExample : JumpDelay :=
  ⟨["JUMP1"], fun _ => ⟨2, [(1, 1), (3, 3)]⟩, ["JUMP1"]⟩

/-- C1: on a batch of length N, `jump_delay` returns a vector of length N
whose entry at each index i is the sum over the discovered jump parameters
whose mask includes i of the negated parameter value, and is 0 at every
index selected by no jump parameter; on a 5-observation batch with one
parameter of value 2 covering indices 1 and 3 the result is exactly
`[0, -2, 0, -2, 0]`. -/
theorem jump_delay_entry_spec (c : JumpDelay) (toas : List ℚ) (i : ℕ)
    (hi : i < toas.length) :
    (jump_delay c toas).length = toas.length ∧
    (jump_delay c toas).getD i 0 =
      -(((c.jumps.filter
            (fun n => matchesRule (c.params n).ranges (toas.getD i 0))).map
          (fun n => (c.params n).value)).sum) ∧
    ((∀ n ∈ c.jumps,
        matchesRule (c.params n).ranges (toas.getD i 0) = false) →
      (jump_delay c toas).getD i 0 = 0) ∧
    jump_delay jumpExample [0, 1, 2, 3, 4] = [0, -2, 0, -2, 0] := by
  refine ⟨jump_delay_length c toas, ?_, ?_, ?_⟩
  · rw [jump_delay_getD c toas i hi, sum_map_neg]
  · intro hnone
    rw [jump_delay_getD c toas i hi]
    have hfil : c.jumps.filter
        (fun n => matchesRule (c.params n).ranges (toas.getD i 0)) = [] := by
      rw [List.filter_eq_nil_iff]
      intro n hn
      simp only [hnone n hn]
      simp
    rw [hfil]
    simp
  · simp [jump_delay, jumpExample, jump_apply, select_toa_mask, matchesRule]
    norm_num

theorem jump_delay_entry_spec_witness :
    1 < ([(0 : ℚ), 1, 2, 3, 4]).length ∧
    ((jump_delay jumpExample [(0 : ℚ), 1, 2, 3, 4]).length =
        ([(0 : ℚ), 1, 2, 3, 4]).length ∧
      (jump_delay jumpExample [(0 : ℚ), 1, 2, 3, 4]).getD 1 0 =
        -(((jumpExample.jumps.filter
              (fun n => matchesRule (jumpExample.params n).ranges
                (([(0 : ℚ), 1, 2, 3, 4]).getD 1 0))).map
            (fun n => (jumpExample.params n).value)).sum) ∧
      ((∀ n ∈ jumpExample.jumps,
          matchesRule (jumpExample.params n).ranges
            (([(0 : ℚ), 1, 2, 3, 4]).getD 1 0) = false) →
        (jump_delay jumpExample [(0 : ℚ), 1, 2, 3, 4]).getD 1 0 = 0) ∧
      jump_delay jumpExample [0, 1, 2, 3, 4] = [0, -2, 0, -2, 0]) :=
  ⟨by decide, jump_delay_entry_spec jumpExample [0, 1, 2, 3, 4] 1 (by decide)⟩

/-- Example component with two discovered jump parameters, of values 2 and
5, whose rules overlap at timestamp 1. -/
def jumpOverlapExample : JumpDelay :=
  ⟨["JUMP1", "JUMP2"],
    fun s => if s = "JUMP1" then ⟨2, [(0, 1)]⟩ else ⟨5, [(1, 2)]⟩,
    ["JUMP1", "JUMP2"]⟩

/-- C8: overlapping selections accumulate additively: with two discovered
jump parameters of values a and b whose masks both include index i, the
`jump_delay` entry at i is the combined contribution -(a + b). -/
theorem jump_delay_overlap_additive (c : JumpDelay) (toas : List ℚ)
    (n1 n2 : String) (i : ℕ) (hi : i < toas.length)
    (hj : c.jumps = [n1, n2])
    (h1 : matchesRule (c.params n1).ranges (toas.getD i 0) = true)
    (h2 : matchesRule (c.params n2).ranges (toas.getD i 0) = true) :
    (jump_delay c toas).getD i 0 =
      -((c.params n1).value + (c.params n2).value) := by
  rw [jump_delay_getD c toas i hi, hj]
  simp only [List.filter_cons, h1, h2]
  simp
  ring

theorem jump_delay_overlap_additive_witness :
    (jump_delay jumpOverlapExample [(0 : ℚ), 1, 2]).getD 1 0 =
      -((jumpOverlapExample.params "JUMP1").value +
        (jumpOverlapExample.params "JUMP2").value) :=
  jump_delay_overlap_additive jumpOverlapExample [0, 1, 2] "JUMP1" "JUMP2" 1
    (by decide) rfl (by decide) (by decide)

/-- Example component with one discovered jump parameter whose rule matches
no timestamp in `0, ..., 9`. -/
def jumpNoMatchExample : JumpDelay :=
  ⟨["JUMP1"], fun _ => ⟨2, [(100, 200)]⟩, ["JUMP1"]⟩

/-- C9: a discovered jump parameter whose rule matches no observation
contributes an all-zero length-N vector from `jump_delay`, and on an empty
batch `jump_delay` returns the empty vector; neither case is an error. -/
theorem jump_delay_empty_match (c : JumpDelay) (toas : List ℚ)
    (n : String) (hj : c.jumps = [n])
    (hnone : ∀ t ∈ toas, matchesRule (c.params n).ranges t = false) :
    jump_delay c toas = List.replicate toas.length 0 ∧
    ∀ c2 : JumpDelay, jump_delay c2 [] = [] := by
  constructor
  · apply List.ext_getElem
    · simp [jump_delay_length]
    · intro k h1 h2
      have hk : k < toas.length := by
        rw [← jump_delay_length c toas]; exact h1
      have hg := jump_delay_getD c toas k hk
      rw [hj] at hg
      have hm : matchesRule (c.params n).ranges (toas.getD k 0) = false := by
        have : toas.getD k 0 = toas[k] := getD_zero_eq_getElem toas k hk
        rw [this]
        exact hnone _ (List.getElem_mem hk)
      rw [getD_zero_eq_getElem _ k h1] at hg
      rw [hg]
      simp only [List.filter_cons, hm]
      simp
  · intro c2
    simpa [jump_delay] using jump_foldl_nil c2 c2.jumps

theorem jump_delay_empty_match_witness :
    jump_delay jumpNoMatchExample [(0 : ℚ), 1, 2, 3, 4, 5, 6, 7, 8, 9] =
      List.replicate ([(0 : ℚ), 1, 2, 3, 4, 5, 6, 7, 8, 9]).length 0 ∧
    ∀ c2 : JumpDelay, jump_delay c2 [] = [] :=
  jump_delay_empty_match jumpNoMatchExample
    [0, 1, 2, 3, 4, 5, 6, 7, 8, 9] "JUMP1" rfl (by decide)

theorem setup_setup (c : JumpDelay) : c.setup.setup = c.setup := rfl

theorem setup_iterate_eq (n : ℕ) :
    ∀ c : JumpDelay, JumpDelay.setup^[n + 1] c = c.setup := by
  induction n with
  | zero => intro c; rfl
  | succ m ih =>
      intro c
      rw [Function.iterate_succ_apply, ih c.setup, setup_setup]

/-- C10: `setup` reassigns `self.jumps` to a fresh list recomputed from the
registry, so for a fixed registry any number of successive `setup` calls
leaves the component in the state of a single call: repeated setup is
idempotent on the discovered-jumps state and never duplicates entries. -/
theorem setup_repeat_idempotent (c : JumpDelay) (n : ℕ) :
    (JumpDelay.setup^[n + 1] c).jumps = c.setup.jumps ∧
    c.setup.setup = c.setup := by
  rw [setup_iterate_eq n c]
  exact ⟨rfl, setup_setup c⟩

/-! Solar wind dispersion component
(`pint/models/solar_wind_dispersion.py`). -/

/-- Python exceptions raised by the solar wind component: the
`NotImplementedError` carrying the offending SWM value, and the `NameError`
raised on reading an unbound local name. -/
inductive PyError where
  | notImplementedError (swm : ℚ)
  | nameError (name : String)
deriving DecidableEq

/-- One observation of the batch as the solar wind component reads it: the
observatory-to-Sun vector (column `obs_sun_pos`), the pulsar line-of-sight
position at the observation's epoch (`ssb_to_psb_xyz_ICRS`), and the raw
observing frequency (column `freq`, in MHz). -/
structure SWObs where
  rvec : Fin 3 → ℝ
  pos : Fin 3 → ℝ
  freq : ℝ

/-- An observation batch together with the optional precomputed barycentric
radio frequencies; `none` embeds the case where the attribute lookup
`self.barycentric_radio_freq` fails with `AttributeError`. -/
structure SWToas where
  obs : List SWObs
  bary_freq : Option (List ℝ)

/-- Sum of componentwise products, `np.sum(a * b, axis=1)` for one row. -/
def dot3 (a b : Fin 3 → ℝ) : ℝ := a 0 * b 0 + a 1 * b 1 + a 2 * b 2

/-- Astronomical unit in meters, `astropy.constants.au`. -/
def au : ℝ := 149597870700

/-- Embeds the per-observation body of `solar_wind_geometry`:
`r = sqrt(sum(rvec*rvec))`, `cos_theta = sum(rvec*pos)/r`,
`theta = arccos(cos_theta)`, value `au^2 * theta / (r * sqrt(1 -
cos_theta^2))`. -/
noncomputable def solar_wind_geometry_obs (ob : SWObs) : ℝ :=
  au ^ 2 * Real.arccos (dot3 ob.rvec ob.pos / Real.sqrt (dot3 ob.rvec ob.rvec)) /
    (Real.sqrt (dot3 ob.rvec ob.rvec) *
      Real.sqrt (1 - (dot3 ob.rvec ob.pos / Real.sqrt (dot3 ob.rvec ob.rvec)) ^ 2))

/-- Embeds `SolarWindDispersion.solar_wind_geometry` over the batch. -/
noncomputable def solar_wind_geometry (toas : SWToas) : List ℝ :=
  toas.obs.map solar_wind_geometry_obs

/-- Embeds `SolarWindDispersion.solar_wind_dm`: for `SWM == 0` the vector
`NE_SW * solar_wind_geometry`, otherwise `NotImplementedError`. -/
noncomputable def solar_wind_dm (swm : ℚ) (ne_sw : ℝ) (toas : SWToas) :
    Except PyError (List ℝ) :=
  if swm = 0 then
    .ok ((solar_wind_geometry toas).map (fun g => ne_sw * g))
  else .error (.notImplementedError swm)

/-- Embeds `SolarWindDispersion.d_dm_d_ne_sw`: for `SWM == 0` the geometry
vector, otherwise `NotImplementedError`. -/
noncomputable def d_dm_d_ne_sw (swm : ℚ) (toas : SWToas) :
    Except PyError (List ℝ) :=
  if swm = 0 then .ok (solar_wind_geometry toas)
  else .error (.notImplementedError swm)

/-- Modelled from the spec: the fixed dispersion constant of the shared
dispersion-to-delay conversion (`DMconst` of `dispersion_model.py`, outside
the sources given). -/
noncomputable def DMconst : ℝ := 1 / (2.41e-4)

/-- Modelled from the spec: the shared dispersion-to-delay conversion
(`Dispersion.dispersion_type_delay` of `dispersion_model.py`, outside the
sources given): the component supplies the DM and the conversion produces
`delay = DMconst * DM / freq^2` from each observation's own frequency
column. -/
noncomputable def dispersion_type_delay (swm : ℚ) (ne_sw : ℝ)
    (toas : SWToas) : Except PyError (List ℝ) :=
  match solar_wind_dm swm ne_sw toas with
  | .error e => .error e
  | .ok dm =>
      .ok (List.zipWith (fun ob d => DMconst * d / ob.freq ^ 2) toas.obs dm)

/-- Embeds `SolarWindDispersion.solar_wind_delay`, a wrapper around
`dispersion_type_delay`. -/
noncomputable def solar_wind_delay (swm : ℚ) (ne_sw : ℝ) (toas : SWToas) :
    Except PyError (List ℝ) :=
  dispersion_type_delay swm ne_sw toas

/-- Modelled from the spec: the shared derivative chain
(`Dispersion.d_delay_d_dmparam` of `dispersion_model.py`, outside the
sources given): the derivative of the delay with respect to a DM parameter
is the component's DM derivative sent through the same dispersion-to-delay
conversion. -/
noncomputable def d_delay_d_dmparam (swm : ℚ) (toas : SWToas) :
    Except PyError (List ℝ) :=
  match d_dm_d_ne_sw swm toas with
  | .error e => .error e
  | .ok ddm =>
      .ok (List.zipWith (fun ob d => DMconst * d / ob.freq ^ 2) toas.obs ddm)

/-- Embeds `SolarWindDispersion.d_delay_d_ne_sw`: look up the barycentric
frequency, falling into the `except AttributeError` handler when it is
unavailable — where the handler reads the unbound local `tbl` and hence
raises `NameError` — then zero the derivative at every observation whose
barycentric frequency is below 1 MHz. -/
noncomputable def d_delay_d_ne_sw (swm : ℚ) (toas : SWToas) :
    Except PyError (List ℝ) :=
  match toas.bary_freq with
  | none => .error (.nameError "tbl")
  | some bfreq =>
      match d_delay_d_dmparam swm toas with
      | .error e => .error e
      | .ok deriv =>
          .ok (List.zipWith (fun f d => if f < 1 then (0 : ℝ) else d)
            bfreq deriv)

theorem arccos_clamp (x : ℝ) :
    Real.arccos (max (-1) (min 1 x)) = Real.arccos x := by
  rcases le_total x (-1) with h | h
  · have hc : max (-1) (min 1 x) = -1 := by
      rw [min_eq_right (by linarith), max_eq_left h]
    rw [hc, Real.arccos_neg_one, Real.arccos_of_le_neg_one h]
  · rcases le_total 1 x with h2 | h2
    · have hc : max (-1) (min 1 x) = 1 := by
        rw [min_eq_left h2]; exact max_eq_right (by norm_num)
      rw [hc, Real.arccos_one, Real.arccos_of_one_le h2]
    · have hc : max (-1) (min 1 x) = x := by
        rw [min_eq_right h2]; exact max_eq_right h
      rw [hc]

theorem sqrt_one_sub_sq_clamp (x : ℝ) :
    Real.sqrt (1 - (max (-1) (min 1 x)) ^ 2) = Real.sqrt (1 - x ^ 2) := by
  rcases le_total x (-1) with h | h
  · have hc : max (-1) (min 1 x) = -1 := by
      rw [min_eq_right (by linarith), max_eq_left h]
    rw [hc, show (1 : ℝ) - (-1) ^ 2 = 0 by norm_num, Real.sqrt_zero,
      Real.sqrt_eq_zero_of_nonpos (by nlinarith)]
  · rcases le_total 1 x with h2 | h2
    · have hc : max (-1) (min 1 x) = 1 := by
        rw [min_eq_left h2]; exact max_eq_right (by norm_num)
      rw [hc, show (1 : ℝ) - 1 ^ 2 = 0 by norm_num, Real.sqrt_zero,
        Real.sqrt_eq_zero_of_nonpos (by nlinarith)]
    · have hc : max (-1) (min 1 x) = x := by
        rw [min_eq_right h2]; exact max_eq_right h
      rw [hc]

/-- Spec wording of the per-observation geometry: `r = |rvec|`, the cosine
`(rvec . pos) / r` clamped to the valid domain of arccos, the angle by
arccos, sin theta computed from the cosine as `sqrt(1 - cos^2)`, and value
`R0^2 * theta / (r * sin theta)` with `R0` one astronomical unit. -/
noncomputable def spec_geometry_formula (rvec pos : Fin 3 → ℝ) : ℝ :=
  au ^ 2 * Real.arccos (max (-1) (min 1 (dot3 rvec pos / Real.sqrt (dot3 rvec rvec)))) /
    (Real.sqrt (dot3 rvec rvec) *
      Real.sqrt (1 - (max (-1) (min 1 (dot3 rvec pos / Real.sqrt (dot3 rvec rvec)))) ^ 2))

theorem geometry_obs_matches_spec (ob : SWObs) :
    solar_wind_geometry_obs ob = spec_geometry_formula ob.rvec ob.pos := by
  unfold solar_wind_geometry_obs spec_geometry_formula
  rw [arccos_clamp, sqrt_one_sub_sq_clamp]

/-- C6: `solar_wind_geometry` computes, per observation, exactly the spec's
formula: with `r` the norm of the observatory-to-Sun vector and the cosine
of the Sun-pulsar angle clamped to the domain of arccos, the value is
`R0^2 * theta / (r * sin theta)` with `R0` one astronomical unit and
`sin theta = sqrt(1 - cos^2)`. -/
theorem solar_wind_geometry_matches_spec (toas : SWToas) :
    solar_wind_geometry toas =
      toas.obs.map (fun ob => spec_geometry_formula ob.rvec ob.pos) := by
  unfold solar_wind_geometry
  have h : solar_wind_geometry_obs =
      fun ob => spec_geometry_formula ob.rvec ob.pos :=
    funext geometry_obs_matches_spec
  rw [h]

/-- C2: under a nonzero model selector SWM, both `solar_wind_dm` and
`d_dm_d_ne_sw` raise `NotImplementedError` immediately; no vector, zero or
otherwise, is produced under that regime. -/
theorem solar_wind_unimplemented_regime (swm : ℚ) (ne_sw : ℝ)
    (toas : SWToas) (h : swm ≠ 0) :
    solar_wind_dm swm ne_sw toas = .error (.notImplementedError swm) ∧
    d_dm_d_ne_sw swm toas = .error (.notImplementedError swm) := by
  constructor <;> simp [solar_wind_dm, d_dm_d_ne_sw, h]

theorem solar_wind_unimplemented_regime_witness :
    (1 : ℚ) ≠ 0 ∧
    (solar_wind_dm 1 0 ⟨[], none⟩ = .error (.notImplementedError 1) ∧
      d_dm_d_ne_sw 1 ⟨[], none⟩ = .error (.notImplementedError 1)) :=
  ⟨by norm_num, solar_wind_unimplemented_regime 1 0 ⟨[], none⟩ (by norm_num)⟩

/-- C7: with SWM = 0 and amplitude NE_SW = 0, `solar_wind_dm` returns the
all-zero DM vector of the batch's length, whatever the geometry factors
are. -/
theorem solar_wind_dm_zero_amplitude (toas : SWToas) :
    solar_wind_dm 0 0 toas = .ok (List.replicate toas.obs.length 0) := by
  unfold solar_wind_dm
  rw [if_pos rfl]
  have h : (fun g => (0 : ℝ) * g) ∘ solar_wind_geometry_obs =
      fun _ => (0 : ℝ) := by
    funext ob; simp
  rw [solar_wind_geometry, List.map_map, h, List.map_const']

theorem d_delay_d_dmparam_zero (toas : SWToas) :
    d_delay_d_dmparam 0 toas =
      .ok (List.zipWith (fun ob d => DMconst * d / ob.freq ^ 2) toas.obs
        (solar_wind_geometry toas)) := by
  unfold d_delay_d_dmparam d_dm_d_ne_sw
  rw [if_pos rfl]

theorem d_delay_d_ne_sw_some (swm : ℚ) (toas : SWToas) (bfreq : List ℝ)
    (hb : toas.bary_freq = some bfreq) (deriv0 : List ℝ)
    (hd : d_delay_d_dmparam swm toas = .ok deriv0) :
    d_delay_d_ne_sw swm toas =
      .ok (List.zipWith (fun f d => if f < 1 then (0 : ℝ) else d)
        bfreq deriv0) := by
  unfold d_delay_d_ne_sw
  rw [hb, hd]

theorem getD_eq_getElem_of_lt {α : Type} (l : List α) (d : α) (k : ℕ)
    (hk : k < l.length) : l.getD k d = l[k] := by
  simp [List.getD_eq_getElem?_getD, List.getElem?_eq_getElem hk]

/-- C3: when the barycentric frequencies are available, every observation
whose barycentric frequency is below 1 MHz has its `d_delay_d_ne_sw` entry
forced to exactly 0, while `solar_wind_delay` returns the full
dispersion-delay vector, untouched by the cutoff and independent of the
barycentric-frequency data. -/
theorem d_delay_low_freq_cutoff (ne_sw : ℝ) (toas : SWToas)
    (bfreq : List ℝ) (hb : toas.bary_freq = some bfreq) :
    (∃ deriv, d_delay_d_ne_sw 0 toas = .ok deriv ∧
      ∀ i, i < deriv.length → bfreq.getD i 0 < 1 → deriv.getD i 0 = 0) ∧
    solar_wind_delay 0 ne_sw toas =
      .ok (List.zipWith (fun ob d => DMconst * d / ob.freq ^ 2) toas.obs
        ((solar_wind_geometry toas).map (fun g => ne_sw * g))) ∧
    (∀ bf2 : Option (List ℝ),
      solar_wind_delay 0 ne_sw ⟨toas.obs, bf2⟩ =
        solar_wind_delay 0 ne_sw toas) := by
  refine ⟨?_, ?_, fun bf2 => rfl⟩
  · refine ⟨List.zipWith (fun f d => if f < 1 then (0 : ℝ) else d) bfreq
      (List.zipWith (fun ob d => DMconst * d / ob.freq ^ 2) toas.obs
        (solar_wind_geometry toas)),
      d_delay_d_ne_sw_some 0 toas bfreq hb _ (d_delay_d_dmparam_zero toas),
      ?_⟩
    intro i hi hf
    have hib : i < bfreq.length := by
      rw [List.length_zipWith] at hi
      exact lt_of_lt_of_le hi (min_le_left _ _)
    rw [getD_eq_getElem_of_lt _ _ _ hi, List.getElem_zipWith]
    rw [getD_eq_getElem_of_lt _ _ _ hib] at hf
    rw [if_pos hf]
  · unfold solar_wind_delay dispersion_type_delay solar_wind_dm
    rw [if_pos rfl]

/-- Example batch for the low-frequency cutoff: two observations with
frequencies 1/2 and 2 MHz, barycentric frequencies available. -/
noncomputable def swExample : SWToas :=
  ⟨[⟨fun _ => 1, fun _ => 0, 1 / 2⟩, ⟨fun _ => 1, fun _ => 0, 2⟩],
    some [1 / 2, 2]⟩

theorem d_delay_low_freq_cutoff_witness :
    swExample.bary_freq = some [1 / 2, 2] ∧
    ((∃ deriv, d_delay_d_ne_sw 0 swExample = .ok deriv ∧
        ∀ i, i < deriv.length →
          ([(1 : ℝ) / 2, 2]).getD i 0 < 1 → deriv.getD i 0 = 0) ∧
      solar_wind_delay 0 1 swExample =
        .ok (List.zipWith (fun ob d => DMconst * d / ob.freq ^ 2)
          swExample.obs
          ((solar_wind_geometry swExample).map (fun g => 1 * g))) ∧
      (∀ bf2 : Option (List ℝ),
        solar_wind_delay 0 1 ⟨swExample.obs, bf2⟩ =
          solar_wind_delay 0 1 swExample)) :=
  ⟨rfl, d_delay_low_freq_cutoff 1 swExample [1 / 2, 2] rfl⟩

/-- C4: when the barycentric-frequency lookup raises `AttributeError`, the
handler of `d_delay_d_ne_sw` reads the unbound local name `tbl`, so the
call raises `NameError` instead of falling back to the batch's raw
frequency column: no derivative vector is returned on this path. -/
theorem d_delay_fallback_name_error (swm : ℚ) (toas : SWToas)
    (h : toas.bary_freq = none) :
    d_delay_d_ne_sw swm toas = .error (.nameError "tbl") := by
  unfold d_delay_d_ne_sw
  rw [h]

theorem d_delay_fallback_name_error_witness :
    (⟨[], none⟩ : SWToas).bary_freq = none ∧
    d_delay_d_ne_sw 0 ⟨[], none⟩ = .error (.nameError "tbl") :=
  ⟨rfl, d_delay_fallback_name_error 0 ⟨[], none⟩ rfl⟩

/-! Derivative registration contract of the composition engine. -/

/-- Error raised by the registration engine on a duplicate registration. -/
inductive RegError where
  | duplicateRegistration (name : String)
deriving DecidableEq

/-- Modelled from the spec: `register_derivative` of the composition engine
(`register_deriv_funcs` of `timing_model.py`, outside the sources given):
inserting a derivative callable under an already-registered parameter name
fails with `DuplicateRegistration` at registration time; otherwise the
registry is extended by the new entry. -/
def register_derivative {α : Type} (name : String) (fn : α)
    (reg : List (String × α)) : Except RegError (List (String × α)) :=
  if reg.any (fun e => e.1 == name) then
    .error (.duplicateRegistration name)
  else .ok (reg ++ [(name, fn)])

/-- C5: registering a derivative callable under a name that already has a
registered callable fails with `DuplicateRegistration` at registration
time; the engine never returns an updated registry, so no existing
registration is silently overwritten. -/
theorem register_derivative_duplicate {α : Type} (name : String)
    (fn fn0 : α) (reg : List (String × α)) (h : (name, fn0) ∈ reg) :
    register_derivative name fn reg = .error (.duplicateRegistration name) ∧
    ∀ reg2, register_derivative name fn reg ≠ .ok reg2 := by
  have hany : reg.any (fun e => e.1 == name) = true :=
    List.any_eq_true.mpr ⟨(name, fn0), h, by simp⟩
  refine ⟨?_, fun reg2 => ?_⟩
  · simp [register_derivative, hany]
  · simp [register_derivative, hany]

theorem register_derivative_duplicate_witness :
    ((("NE_SW", 0) : String × ℕ) ∈ [(("NE_SW", 0) : String × ℕ)]) ∧
    (register_derivative "NE_SW" 1 [(("NE_SW", 0) : String × ℕ)] =
        .error (.duplicateRegistration "NE_SW") ∧
      ∀ reg2, register_derivative "NE_SW" (1 : ℕ) [("NE_SW", 0)] ≠
        .ok reg2) :=
  ⟨by simp, register_derivative_duplicate "NE_SW" 1 0 [("NE_SW", 0)]
    (by simp)⟩

end PintSpec
